import Mathlib

/-!
# golang-sse-demo: the broker, the stream session and the publish endpoint

A shallow embedding of `broker.go` and `service.go`.

Conventions of the embedding.

* The broker is a value of `Broker`; a method of the Go type is a function
  from the state before the call to the state after it (and the returned
  value, when there is one).  A Go `panic` is the `error` case of `Except`.
* `broker.subscribers` (a Go map) is an association list searched from the
  front; `GoMap.set`, `GoMap.delete` and `GoMap.get` are the map assignment,
  the `delete` builtin and the two-valued index expression.
* A delivery channel (`chan []byte`, unbuffered) is represented by the record
  of the values handed over on it, oldest first.  A send is taken to find its
  receiver ready, and the channels held by the registry are open: they are
  made by `Service.Subscribe` and closed only by `Broker.Unsubscribe`, which
  removes the entry in the same critical section.
* `broker.log <- msg` hands the message to the history goroutine of
  `NewBroker` and returns: the field `received` is the message the goroutine
  holds and has not stored yet.  The goroutine stores it in a step of its own
  (`Broker.historyGoroutine`), which a run may schedule at any point; the
  channel being unbuffered, the next hand-over completes only after that
  step, so `Broker.Publish` runs it first for the message held from before.
* `encoding/json` is a parameter (`Json`): the program only relies on
  `Marshal` and `Unmarshal` returning a value or an error.
* The field `trace` is ghost state: every method records its own entry, every
  `mtx.Lock()` / `mtx.Unlock()`, every read or write of `subscribers` and
  `history`, every channel send and every channel close, in program order.
  Console output (`fmt.Printf`) is not recorded.
-/

namespace SSE

/-! ## Data model (`broker.go`) -/

/-- The Go type `ClientId = string`. -/
abbrev ClientId := String

/-- The Go type `[]byte`. -/
abbrev Bytes := List UInt8

/-- The UTF-8 bytes of a string literal of the program. -/
def lit (s : String) : Bytes := s.toUTF8.data.toList

/-- The Go struct `Message`; `Timestamp` is a `uint64` that the program only stores. -/
structure Message where
  ClientId : String
  Id : String
  Timestamp : Nat
  Payload : String
deriving DecidableEq, Repr

/-- A delivery channel `chan []byte`: the values sent on it so far, oldest first. -/
structure Chan where
  delivered : List Bytes
deriving DecidableEq, Repr

/-- The result of `make(chan []byte)`. -/
def Chan.make : Chan := { delivered := [] }

/-- The statement `channel <- data`. -/
def Chan.send (c : Chan) (data : Bytes) : Chan := { delivered := c.delivered ++ [data] }

/-- Ghost events, one per method entry, mutex operation, access to the shared
fields of the broker, and channel operation. -/
inductive Event where
  | IsConnected (clientId : ClientId)
  | Subscribe (clientId : ClientId)
  | Unsubscribe (clientId : ClientId)
  | Publish (msg : Message)
  | Recent
  | Lock
  | Unlock
  | readSubscribers
  | writeSubscribers
  | readHistory
  | writeHistory
  | send (clientId : ClientId) (data : Bytes)
  | close (clientId : ClientId)
deriving DecidableEq, Repr

/-- The values a Go `panic` of `broker.go` carries. -/
inductive Panic where
  | mk (msg : String)
deriving DecidableEq, Repr

/-- The panic of `Broker.Subscribe`. -/
def AlreadySubscribed : Panic := .mk "client already subscribed!"

/-- The panic of `Broker.Unsubscribe`. -/
def NotSubscribed : Panic := .mk "client not subscribed"

/-! ## Go maps -/

/-- A Go map with string keys, as an association list. -/
abbrev GoMap (β : Type) := List (ClientId × β)

/-- The index expression `v, ok := m[k]`. -/
def GoMap.get {β : Type} : GoMap β → ClientId → Option β
  | [], _ => none
  | (k, v) :: rest, key => if k = key then some v else GoMap.get rest key

/-- The builtin `delete(m, k)`. -/
def GoMap.delete {β : Type} (m : GoMap β) (key : ClientId) : GoMap β :=
  m.filter (fun e => decide (e.1 ≠ key))

/-- The assignment `m[k] = v`. -/
def GoMap.set {β : Type} (m : GoMap β) (key : ClientId) (v : β) : GoMap β :=
  (key, v) :: GoMap.delete m key

/-! ## The broker (`broker.go`) -/

/-- The Go struct `Broker`, with the state of its history goroutine.  The mutex
carries no data of its own; its use is recorded in `trace`. -/
structure Broker where
  subscribers : GoMap Chan
  history : List Message
  /-- The message the history goroutine has received from `log` (its variable
  `str`) and not stored yet; `none` when the goroutine waits at its receive. -/
  received : Option Message
  trace : List Event
deriving DecidableEq, Repr

/-- Append ghost events to the trace. -/
def Broker.emit (broker : Broker) (es : List Event) : Broker :=
  { broker with trace := broker.trace ++ es }

/-- The body of the history goroutine of `NewBroker` for one received message:
`offset := len(h) - 10; if offset > 0 { h = h[offset:] }; append(h, str)`. -/
def historyStep (h : List Message) (str : Message) : List Message :=
  let offset : Int := (h.length : Int) - 10
  let h := if offset > 0 then h.drop offset.toNat else h
  h ++ [str]

/-- The function `NewBroker`: no subscribers, empty history, the history
goroutine waiting at its receive. -/
def NewBroker : Broker := { subscribers := [], history := [], received := none, trace := [] }

/-- One turn of the loop of the history goroutine of `NewBroker`, from after its
receive `case str := <-log` back to it: the received message is stored with
`historyStep`.  Waiting at the receive, the goroutine does nothing. -/
def Broker.historyGoroutine (broker : Broker) : Broker :=
  match broker.received with
  | none => broker
  | some str =>
    let broker := broker.emit [.readHistory]
    let broker := { broker with history := historyStep broker.history str, received := none }
    broker.emit [.writeHistory]

/-- The method `Broker.IsConnected`. -/
def Broker.IsConnected (broker : Broker) (clientId : ClientId) : Bool × Broker :=
  let broker := broker.emit [.IsConnected clientId, .Lock, .readSubscribers]
  let ok := (GoMap.get broker.subscribers clientId).isSome
  (ok, broker.emit [.Unlock])

/-- The method `Broker.Subscribe`. -/
def Broker.Subscribe (broker : Broker) (clientId : ClientId) (s : Chan) : Except Panic Broker :=
  let broker := broker.emit [.Subscribe clientId, .Lock, .readSubscribers]
  match GoMap.get broker.subscribers clientId with
  | some _ => .error AlreadySubscribed
  | none =>
    let broker := { broker with subscribers := GoMap.set broker.subscribers clientId s }
    .ok (broker.emit [.writeSubscribers, .Unlock])

/-- The method `Broker.Unsubscribe`.  The closed channel leaves the state
together with its entry. -/
def Broker.Unsubscribe (broker : Broker) (clientId : ClientId) : Except Panic Broker :=
  let broker := broker.emit [.Unsubscribe clientId, .Lock, .readSubscribers]
  match GoMap.get broker.subscribers clientId with
  | none => .error NotSubscribed
  | some _ =>
    let broker := broker.emit [.close clientId]
    let broker := { broker with subscribers := GoMap.delete broker.subscribers clientId }
    .ok (broker.emit [.writeSubscribers, .Unlock])

/-- The use the program makes of `encoding/json`. -/
structure Json where
  /-- The call `json.Marshal(msg)` on a `Message`; `none` is a non-nil `err`. -/
  marshalMessage : Message → Option Bytes
  /-- The call `json.Marshal` on the init envelope `{clientId, history}`. -/
  marshalInit : ClientId → List Message → Option Bytes
  /-- The call `json.Unmarshal(buf, &msg)`; `none` is a non-nil `err`. -/
  unmarshalMessage : Bytes → Option Message

/-- The loop `for _, channel := range broker.subscribers { channel <- data }`. -/
def fanOut (data : Bytes) (subscribers : GoMap Chan) : GoMap Chan :=
  subscribers.map (fun e => (e.1, e.2.send data))

/-- The ghost events of the fan-out loop, one send per entry. -/
def fanOutEvents (data : Bytes) (subscribers : GoMap Chan) : List Event :=
  subscribers.map (fun e => Event.send e.1 data)

/-- The method `Broker.Publish`. -/
def Broker.Publish (json : Json) (broker : Broker) (msg : Message) : Broker :=
  let broker := broker.emit [.Publish msg]
  -- `broker.log <- msg`: the goroutine comes back to its receive, then takes `msg`
  let broker := broker.historyGoroutine
  let broker := { broker with received := some msg }
  match json.marshalMessage msg with
  | none => broker
  | some data =>
    let broker := broker.emit (.readSubscribers :: fanOutEvents data broker.subscribers)
    { broker with subscribers := fanOut data broker.subscribers }

/-- The method `Broker.Recent`. -/
def Broker.Recent (broker : Broker) : List Message × Broker :=
  (broker.history, broker.emit [.Recent, .readHistory])

/-- A run of `Publish` calls, one per message, in order, each made when the one
before has returned. -/
def publishAll (json : Json) (broker : Broker) (msgs : List Message) : Broker :=
  msgs.foldl (Broker.Publish json) broker

/-- A step of a run of the broker: a call of a method that changes its state,
or a turn of the history goroutine. -/
inductive Call where
  | subscribe (clientId : ClientId) (s : Chan)
  | unsubscribe (clientId : ClientId)
  | publish (msg : Message)
  | goroutine
deriving DecidableEq, Repr

/-- One step on the broker. -/
def Broker.call (json : Json) (broker : Broker) : Call → Except Panic Broker
  | .subscribe clientId s => broker.Subscribe clientId s
  | .unsubscribe clientId => broker.Unsubscribe clientId
  | .publish msg => .ok (broker.Publish json msg)
  | .goroutine => .ok broker.historyGoroutine

/-- A run of steps in order; it stops at the first panic. -/
def Broker.calls (json : Json) (broker : Broker) : List Call → Except Panic Broker
  | [] => .ok broker
  | c :: cs =>
    match broker.call json c with
    | .error p => .error p
    | .ok next => next.calls json cs

/-- The messages published by a run of calls, in order. -/
def published : List Call → List Message
  | [] => []
  | .publish msg :: cs => msg :: published cs
  | _ :: cs => published cs

/-- The net registration state in the words of the specification: the
identifier was subscribed in the sequence and not unsubscribed after that. -/
def netRegistered (cs : List Call) (clientId : ClientId) : Prop :=
  ∃ before s after, cs = before ++ Call.subscribe clientId s :: after ∧
    Call.unsubscribe clientId ∉ after

/-! ## Lock discipline over the ghost trace -/

/-- The events that read or write `broker.subscribers` or `broker.history`. -/
def Event.isAccess : Event → Bool
  | .readSubscribers => true
  | .writeSubscribers => true
  | .readHistory => true
  | .writeHistory => true
  | _ => false

/-- Whether every access of the trace happens between a `Lock` and the next
`Unlock`; `held` tells whether the mutex is held where the trace starts. -/
def guarded (held : Bool) : List Event → Bool
  | [] => true
  | .Lock :: es => guarded true es
  | .Unlock :: es => guarded false es
  | e :: es => (!e.isAccess || held) && guarded held es

/-! ## The HTTP boundary (`net/http`) -/

/-- What the handlers read of an `*http.Request`. -/
structure Request where
  /-- The field `r.Method`. -/
  Method : String
  /-- The value of `r.Cookie("clientId")`; `none` when the call returns an error. -/
  Cookie : Option String
  /-- The result of `ioutil.ReadAll(r.Body)`; `none` when the read fails. -/
  Body : Option Bytes
deriving DecidableEq, Repr

/-- What reaches the connection: a `Write` of some bytes, or a `Flush`. -/
inductive Chunk where
  | write (p : Bytes)
  | flush
deriving DecidableEq, Repr

/-- An `http.ResponseWriter`: whether it is an `http.Flusher`, the header map,
the status code once the header is written, and what was written and flushed. -/
structure ResponseWriter where
  flusher : Bool
  header : List (String × String)
  status : Option Nat
  out : List Chunk
deriving DecidableEq, Repr

/-- The response writer a handler is called with. -/
def ResponseWriter.fresh (flusher : Bool) : ResponseWriter :=
  { flusher := flusher, header := [], status := none, out := [] }

/-- The call `w.Header().Set(key, value)`. -/
def ResponseWriter.setHeader (w : ResponseWriter) (key value : String) : ResponseWriter :=
  { w with header := GoMap.set w.header key value }

/-- The call `w.Header().Add(key, value)`. -/
def ResponseWriter.addHeader (w : ResponseWriter) (key value : String) : ResponseWriter :=
  { w with header := w.header ++ [(key, value)] }

/-- The call `w.WriteHeader(code)`; only the first one counts. -/
def ResponseWriter.WriteHeader (w : ResponseWriter) (code : Nat) : ResponseWriter :=
  match w.status with
  | none => { w with status := some code }
  | some _ => w

/-- The call `w.Write(p)`; it writes the header with status 200 when none was written. -/
def ResponseWriter.Write (w : ResponseWriter) (p : Bytes) : ResponseWriter :=
  let w := w.WriteHeader 200
  { w with out := w.out ++ [.write p] }

/-- The call `flusher.Flush()`. -/
def ResponseWriter.Flush (w : ResponseWriter) : ResponseWriter :=
  let w := w.WriteHeader 200
  { w with out := w.out ++ [.flush] }

/-- The bytes written to the response, in order. -/
def ResponseWriter.body (w : ResponseWriter) : Bytes :=
  (w.out.map (fun c => match c with | .write p => p | .flush => [])).flatten

namespace http

def StatusBadRequest : Nat := 400
def StatusUnauthorized : Nat := 401
def StatusMethodNotAllowed : Nat := 405
def MethodGet : String := "GET"
def MethodPost : String := "POST"

/-- The function `http.StatusText` on the codes the program uses. -/
def StatusText (code : Nat) : String :=
  if code = 400 then "Bad Request"
  else if code = 401 then "Unauthorized"
  else if code = 405 then "Method Not Allowed"
  else ""

/-- The function `http.Error`: plain-text headers, the status code, the message and a newline. -/
def Error (w : ResponseWriter) (error : String) (code : Nat) : ResponseWriter :=
  let w := w.setHeader "Content-Type" "text/plain; charset=utf-8"
  let w := w.setHeader "X-Content-Type-Options" "nosniff"
  let w := w.WriteHeader code
  w.Write (lit error ++ lit "\n")

end http

/-! ## The service (`service.go`) -/

def clientIdCookieName : String := "clientId"

/-- The function `ensureClientId`; `newId` is what `idGenerator.Id()` returns
when it is called. -/
def ensureClientId (newId : ClientId) (w : ResponseWriter) (r : Request) :
    ClientId × ResponseWriter :=
  match r.Cookie with
  | some value => (value, w)
  | none => (newId, w.addHeader "Set-Cookie" (clientIdCookieName ++ "=" ++ newId))

/-- The statement `fmt.Fprintf(w, "event: init\ndata: %s\n\n", data)`. -/
def initEvent (data : Bytes) : Bytes :=
  lit "event: init\ndata: " ++ data ++ lit "\n\n"

/-- The statement `fmt.Fprintf(w, "event: published\ndata: %s\n\n", data)`. -/
def publishedEvent (data : Bytes) : Bytes :=
  lit "event: published\ndata: " ++ data ++ lit "\n\n"

/-- The `for { select { ... } }` loop of `Service.Subscribe`: `arrivals` are the
values received on `sub`, in order, before `ctx.Done()` is selected. -/
def streamLoop (w : ResponseWriter) : List Bytes → ResponseWriter
  | [] => w
  | data :: rest => streamLoop ((w.Write (publishedEvent data)).Flush) rest

/-- The handler `Service.Subscribe`, on the broker the service is bound to. -/
def Service.Subscribe (json : Json) (newId : ClientId) (arrivals : List Bytes)
    (broker : Broker) (w : ResponseWriter) (r : Request) :
    Except Panic (ResponseWriter × Broker) :=
  if r.Method ≠ http.MethodGet then
    .ok (http.Error w (http.StatusText http.StatusMethodNotAllowed) http.StatusMethodNotAllowed,
      broker)
  else if w.flusher = false then
    .ok (http.Error w "SSE unavailable" http.StatusBadRequest, broker)
  else
    let w := w.setHeader "Content-Type" "text/event-stream"
    let w := w.setHeader "Cache-Control" "no-cache"
    let w := w.setHeader "Connection" "keep-alive"
    let (clientId, w) := ensureClientId newId w r
    let sub := Chan.make
    match broker.Subscribe clientId sub with
    | .error p => .error p
    | .ok broker =>
      -- from here on every return runs the deferred `s.broker.Unsubscribe(clientId)`
      let (history, broker) := broker.Recent
      match json.marshalInit clientId history with
      | none =>
        match broker.Unsubscribe clientId with
        | .error p => .error p
        | .ok broker => .ok (w, broker)
      | some data =>
        let w := (w.Write (initEvent data)).Flush
        let w := streamLoop w arrivals
        match broker.Unsubscribe clientId with
        | .error p => .error p
        | .ok broker => .ok (w, broker)

/-- The method `Service.hasValidClientId`. -/
def Service.hasValidClientId (broker : Broker) (r : Request) : Bool × Broker :=
  match r.Cookie with
  | none => (false, broker)
  | some value => broker.IsConnected value

/-- The handler `Service.Publish`, on the broker the service is bound to. -/
def Service.Publish (json : Json) (broker : Broker) (w : ResponseWriter) (r : Request) :
    ResponseWriter × Broker :=
  if r.Method ≠ http.MethodPost then
    (http.Error w (http.StatusText http.StatusMethodNotAllowed) http.StatusMethodNotAllowed,
      broker)
  else
    let (valid, broker) := Service.hasValidClientId broker r
    if valid = false then
      (http.Error w (http.StatusText http.StatusUnauthorized) http.StatusUnauthorized, broker)
    else
      match r.Body with
      | none => (http.Error w (http.StatusText http.StatusBadRequest) http.StatusBadRequest, broker)
      | some buf =>
        match json.unmarshalMessage buf with
        | none =>
          (http.Error w (http.StatusText http.StatusBadRequest) http.StatusBadRequest, broker)
        | some msg => (w, broker.Publish json msg)

/-! ## Test data -/

/-- A message numbered `i`. -/
def sampleMessage (i : Nat) : Message :=
  { ClientId := "a", Id := toString i, Timestamp := 1000 + i, Payload := "hello" }

/-- The messages numbered `lo`, ..., `lo + n - 1`. -/
def sampleMessages (lo n : Nat) : List Message :=
  (List.range' lo n).map sampleMessage

/-- A stand-in for `encoding/json` used on test data: the identifier as bytes. -/
def sampleJson : Json :=
  { marshalMessage := fun m => some (lit m.Id)
    marshalInit := fun c h => some (lit c ++ [(UInt8.ofNat h.length)])
    unmarshalMessage := fun _ => none }

/-- A run of calls used as test data: `a` and `b` subscribe, a message is
published, `a` unsubscribes, a second message is published. -/
def sampleCalls : List Call :=
  [.subscribe "a" Chan.make, .subscribe "b" Chan.make, .publish (sampleMessage 1),
    .unsubscribe "a", .publish (sampleMessage 2)]

/-- The broker after `sampleCalls` on a fresh broker, with `sampleJson`: the
second message is still held by the history goroutine. -/
def sampleFinal : Broker :=
  { subscribers := [("b", { delivered := [lit "1", lit "2"] })]
    history := [sampleMessage 1]
    received := some (sampleMessage 2)
    trace :=
      [.Subscribe "a", .Lock, .readSubscribers, .writeSubscribers, .Unlock,
        .Subscribe "b", .Lock, .readSubscribers, .writeSubscribers, .Unlock,
        .Publish (sampleMessage 1), .readSubscribers,
        .send "b" (lit "1"), .send "a" (lit "1"),
        .Unsubscribe "a", .Lock, .readSubscribers, .close "a", .writeSubscribers, .Unlock,
        .Publish (sampleMessage 2), .readHistory, .writeHistory, .readSubscribers,
        .send "b" (lit "2")] }

/-- A GET request without a cookie, used as test data. -/
def sampleGet : Request := { Method := "GET", Cookie := none, Body := none }

/-- The history goroutine of the broker has been handed exactly `msgs`, in this
order: either it has stored them all, or it holds the last one and has stored
the ones before. -/
def handedOver (broker : Broker) (msgs : List Message) : Prop :=
  (broker.received = none ∧ broker.history = msgs.foldl historyStep []) ∨
    ∃ init m, msgs = init ++ [m] ∧ broker.received = some m ∧
      broker.history = init.foldl historyStep []

/-- The ghost events recorded between two states of the broker. -/
def eventsSince (before after : Broker) : List Event :=
  after.trace.drop before.trace.length

/-! ## The history -/

theorem historyStep_eq (h : List Message) (str : Message) :
    historyStep h str = h.drop (h.length - 10) ++ [str] := by
  unfold historyStep
  by_cases hlen : 10 < h.length
  · have hpos : (h.length : Int) - 10 > 0 := by omega
    have hnat : ((h.length : Int) - 10).toNat = h.length - 10 := by omega
    simp only [hpos, if_true, hnat]
  · have hpos : ¬ ((h.length : Int) - 10 > 0) := by omega
    have hzero : h.length - 10 = 0 := by omega
    simp only [hpos, if_false, hzero, List.drop_zero]

theorem historyGoroutine_history (broker : Broker) :
    broker.historyGoroutine.history =
      match broker.received with
      | none => broker.history
      | some str => historyStep broker.history str := by
  unfold Broker.historyGoroutine
  cases broker.received <;> simp [Broker.emit]

theorem historyGoroutine_received (broker : Broker) :
    broker.historyGoroutine.received = none := by
  unfold Broker.historyGoroutine
  cases h : broker.received <;> simp [Broker.emit, h]

theorem historyGoroutine_subscribers (broker : Broker) :
    broker.historyGoroutine.subscribers = broker.subscribers := by
  unfold Broker.historyGoroutine
  cases broker.received <;> simp [Broker.emit]

theorem historyGoroutine_trace (broker : Broker) :
    broker.historyGoroutine.trace = broker.trace ++
      match broker.received with
      | none => []
      | some _ => [.readHistory, .writeHistory] := by
  unfold Broker.historyGoroutine
  cases broker.received <;> simp [Broker.emit]

theorem Publish_history (json : Json) (broker : Broker) (msg : Message) :
    (broker.Publish json msg).history = broker.historyGoroutine.history := by
  unfold Broker.Publish
  cases json.marshalMessage msg <;> simp [Broker.emit, historyGoroutine_history]

theorem Publish_received (json : Json) (broker : Broker) (msg : Message) :
    (broker.Publish json msg).received = some msg := by
  unfold Broker.Publish
  cases json.marshalMessage msg <;> simp [Broker.emit]

theorem publishAll_append (json : Json) (broker : Broker) (l : List Message) (a : Message) :
    publishAll json broker (l ++ [a]) = (publishAll json broker l).Publish json a := by
  simp [publishAll, List.foldl_append]

theorem foldl_historyStep (msgs : List Message) :
    msgs.foldl historyStep [] = msgs.drop (msgs.length - 11) := by
  induction msgs using List.reverseRecOn with
  | nil => rfl
  | append_singleton l a ih =>
    rw [List.foldl_append, List.foldl_cons, List.foldl_nil, ih, historyStep_eq]
    simp only [List.length_drop, List.length_append, List.length_singleton, List.drop_drop]
    by_cases hlen : 11 ≤ l.length
    · have e1 : l.length - 11 + (l.length - (l.length - 11) - 10) = l.length + 1 - 11 := by omega
      have e2 : l.length + 1 - 11 ≤ l.length := by omega
      rw [e1, List.drop_append_of_le_length e2]
    · have e1 : l.length - 11 = 0 := by omega
      have e2 : l.length + 1 - 11 = 0 := by omega
      have e3 : l.length - 0 - 10 = 0 := by omega
      simp only [e1, e2, e3, List.drop_zero, Nat.add_zero]

theorem NewBroker_stored (json : Json) (msgs : List Message) :
    (publishAll json NewBroker msgs).historyGoroutine.history = msgs.foldl historyStep [] := by
  induction msgs using List.reverseRecOn with
  | nil => rfl
  | append_singleton l a ih =>
    rw [publishAll_append, historyGoroutine_history, Publish_received, Publish_history, ih,
      List.foldl_append]
    rfl

theorem NewBroker_history (json : Json) (msgs : List Message) :
    (publishAll json NewBroker msgs).history = msgs.dropLast.foldl historyStep [] := by
  cases msgs using List.reverseRecOn with
  | nil => rfl
  | append_singleton l a =>
    rw [publishAll_append, Publish_history, NewBroker_stored, List.dropLast_concat]

theorem handedOver_step (json : Json) (broker next : Broker) (c : Call) (pre : List Message)
    (h : handedOver broker pre) (hc : broker.call json c = .ok next) :
    handedOver next (pre ++ published [c]) := by
  have hstored : broker.historyGoroutine.history = pre.foldl historyStep [] := by
    rw [historyGoroutine_history]
    rcases h with ⟨h1, h2⟩ | ⟨init, m, h0, h1, h2⟩
    · rw [h1]; exact h2
    · rw [h1, h0, List.foldl_append, h2]; rfl
  cases c with
  | subscribe id s =>
    simp only [Broker.call] at hc
    have e : next.received = broker.received ∧ next.history = broker.history := by
      unfold Broker.Subscribe at hc
      simp only [Broker.emit] at hc
      split at hc
      · cases hc
      · cases hc; exact ⟨rfl, rfl⟩
    simpa [published, handedOver, e.1, e.2] using h
  | unsubscribe id =>
    simp only [Broker.call] at hc
    have e : next.received = broker.received ∧ next.history = broker.history := by
      unfold Broker.Unsubscribe at hc
      simp only [Broker.emit] at hc
      split at hc
      · cases hc
      · cases hc; exact ⟨rfl, rfl⟩
    simpa [published, handedOver, e.1, e.2] using h
  | publish msg =>
    simp only [Broker.call, Except.ok.injEq] at hc
    subst hc
    exact Or.inr ⟨pre, msg, rfl, Publish_received json broker msg,
      (Publish_history json broker msg).trans hstored⟩
  | goroutine =>
    simp only [Broker.call, Except.ok.injEq] at hc
    subst hc
    exact Or.inl ⟨historyGoroutine_received broker, by simpa [published] using hstored⟩

theorem published_cons (c : Call) (cs : List Call) :
    published (c :: cs) = published [c] ++ published cs := by
  cases c <;> simp [published]

theorem calls_handedOver (json : Json) (cs : List Call) :
    ∀ (broker final : Broker) (pre : List Message), handedOver broker pre →
      broker.calls json cs = .ok final → handedOver final (pre ++ published cs) := by
  induction cs with
  | nil =>
    intro broker final pre h hrun
    simp only [Broker.calls, Except.ok.injEq] at hrun
    subst hrun
    simpa [published] using h
  | cons c cs ih =>
    intro broker final pre h hrun
    rw [Broker.calls] at hrun
    cases hc : broker.call json c with
    | error p => rw [hc] at hrun; cases hrun
    | ok next =>
      rw [hc] at hrun
      simp only at hrun
      have h2 := ih next final _ (handedOver_step json broker next c pre h hc) hrun
      rwa [List.append_assoc, ← published_cons] at h2

theorem NewBroker_handedOver (json : Json) (cs : List Call) (final : Broker)
    (hrun : NewBroker.calls json cs = .ok final) : handedOver final (published cs) := by
  have h := calls_handedOver json cs NewBroker final [] (Or.inl ⟨rfl, rfl⟩) hrun
  simpa using h

theorem foldl_historyStep_short (msgs : List Message) (h : msgs.length ≤ 10) :
    msgs.foldl historyStep [] = msgs := by
  rw [foldl_historyStep]
  have e : msgs.length - 11 = 0 := by omega
  rw [e, List.drop_zero]

theorem foldl_historyStep_length (msgs : List Message) :
    (msgs.foldl historyStep []).length = min msgs.length 11 := by
  rw [foldl_historyStep, List.length_drop]
  omega

/-! ## The registry -/

theorem GoMap.delete_cons {β : Type} (k0 : ClientId) (v0 : β) (rest : GoMap β)
    (key : ClientId) :
    GoMap.delete ((k0, v0) :: rest) key =
      if k0 = key then GoMap.delete rest key else (k0, v0) :: GoMap.delete rest key := by
  unfold GoMap.delete
  by_cases h : k0 = key <;> simp [List.filter_cons, h]

theorem GoMap.get_delete {β : Type} (m : GoMap β) (key k : ClientId) :
    GoMap.get (GoMap.delete m key) k = if k = key then none else GoMap.get m k := by
  induction m with
  | nil => simp [GoMap.delete, GoMap.get]
  | cons e rest ih =>
    obtain ⟨k0, v0⟩ := e
    rw [GoMap.delete_cons]
    by_cases h0 : k0 = key
    · rw [if_pos h0, ih]
      by_cases h1 : k = key
      · simp [h1]
      · have h2 : ¬ k0 = k := fun h => h1 (h ▸ h0)
        simp [GoMap.get, h1, h2]
    · rw [if_neg h0]
      by_cases h2 : k0 = k
      · have h1 : ¬ k = key := fun h => h0 (h2.trans h)
        simp [GoMap.get, h1, h2]
      · simp [GoMap.get, h2, ih]

theorem GoMap.delete_of_get_none {β : Type} (m : GoMap β) (key : ClientId)
    (h : GoMap.get m key = none) : GoMap.delete m key = m := by
  induction m with
  | nil => rfl
  | cons e rest ih =>
    obtain ⟨k0, v0⟩ := e
    rw [GoMap.delete_cons]
    by_cases h0 : k0 = key
    · simp [GoMap.get, h0] at h
    · simp only [GoMap.get, h0, if_false] at h
      rw [if_neg h0, ih h]

theorem GoMap.get_set {β : Type} (m : GoMap β) (key k : ClientId) (v : β) :
    GoMap.get (GoMap.set m key v) k = if k = key then some v else GoMap.get m k := by
  unfold GoMap.set
  by_cases h : k = key
  · subst h
    simp [GoMap.get]
  · have h2 : ¬ key = k := fun e => h e.symm
    simp [GoMap.get, h, h2, GoMap.get_delete]

theorem get_fanOut (data : Bytes) (m : GoMap Chan) (k : ClientId) :
    GoMap.get (fanOut data m) k = (GoMap.get m k).map (fun c => c.send data) := by
  induction m with
  | nil => rfl
  | cons e rest ih =>
    obtain ⟨k0, v0⟩ := e
    unfold fanOut at ih ⊢
    by_cases h0 : k0 = k
    · simp [GoMap.get, h0]
    · simpa [GoMap.get, h0] using ih

theorem Subscribe_of_absent (broker : Broker) (clientId : ClientId) (s : Chan)
    (h : GoMap.get broker.subscribers clientId = none) :
    broker.Subscribe clientId s = .ok
      { subscribers := (clientId, s) :: broker.subscribers
        history := broker.history
        received := broker.received
        trace := broker.trace ++
          [.Subscribe clientId, .Lock, .readSubscribers, .writeSubscribers, .Unlock] } := by
  simp [Broker.Subscribe, Broker.emit, h, GoMap.set, GoMap.delete_of_get_none]

theorem Subscribe_of_present (broker : Broker) (clientId : ClientId) (s c : Chan)
    (h : GoMap.get broker.subscribers clientId = some c) :
    broker.Subscribe clientId s = .error AlreadySubscribed := by
  simp [Broker.Subscribe, Broker.emit, h]

theorem Unsubscribe_of_present (broker : Broker) (clientId : ClientId) (c : Chan)
    (h : GoMap.get broker.subscribers clientId = some c) :
    broker.Unsubscribe clientId = .ok
      { subscribers := GoMap.delete broker.subscribers clientId
        history := broker.history
        received := broker.received
        trace := broker.trace ++
          [.Unsubscribe clientId, .Lock, .readSubscribers, .close clientId,
            .writeSubscribers, .Unlock] } := by
  simp [Broker.Unsubscribe, Broker.emit, h]

theorem Unsubscribe_of_absent (broker : Broker) (clientId : ClientId)
    (h : GoMap.get broker.subscribers clientId = none) :
    broker.Unsubscribe clientId = .error NotSubscribed := by
  simp [Broker.Unsubscribe, Broker.emit, h]

theorem Publish_subscribers (json : Json) (broker : Broker) (msg : Message) :
    (broker.Publish json msg).subscribers =
      match json.marshalMessage msg with
      | none => broker.subscribers
      | some data => fanOut data broker.subscribers := by
  unfold Broker.Publish
  cases json.marshalMessage msg with
  | none => exact historyGoroutine_subscribers _
  | some data =>
    show fanOut data (broker.emit [.Publish msg]).historyGoroutine.subscribers = _
    rw [historyGoroutine_subscribers]
    rfl

theorem Publish_subscribers_get (json : Json) (broker : Broker) (msg : Message) (k : ClientId) :
    GoMap.get (broker.Publish json msg).subscribers k =
      (GoMap.get broker.subscribers k).map (fun c =>
        { delivered := c.delivered ++ (json.marshalMessage msg).toList }) := by
  rw [Publish_subscribers]
  cases hm : json.marshalMessage msg with
  | none =>
    cases hg : GoMap.get broker.subscribers k <;> simp [hg]
  | some data =>
    cases hg : GoMap.get broker.subscribers k <;> simp [hg, get_fanOut, Chan.send]

/-! ## Claims about the history -/

/-- C1 (evaluation of the code at the failing input): after the twelve messages
numbered 1 to 12 are published to a fresh broker, `Recent()` returns eleven
messages, those numbered 1 to 11 while the history goroutine still holds the
twelfth and those numbered 2 to 12 once it has stored it; in neither case the
ten messages numbered 3 to 12. -/
theorem Recent_after_twelve_publishes (json : Json) :
    (Broker.Recent (publishAll json NewBroker (sampleMessages 1 12))).1 = sampleMessages 1 11 ∧
    (Broker.Recent (publishAll json NewBroker (sampleMessages 1 12)).historyGoroutine).1 =
      sampleMessages 2 11 ∧
    (Broker.Recent (publishAll json NewBroker (sampleMessages 1 12))).1.length = 11 ∧
    (Broker.Recent (publishAll json NewBroker (sampleMessages 1 12)).historyGoroutine).1.length =
      11 ∧
    (Broker.Recent (publishAll json NewBroker (sampleMessages 1 12))).1 ≠ sampleMessages 3 10 ∧
    (Broker.Recent (publishAll json NewBroker (sampleMessages 1 12)).historyGoroutine).1 ≠
      sampleMessages 3 10 := by
  have h1 : (Broker.Recent (publishAll json NewBroker (sampleMessages 1 12))).1 =
      sampleMessages 1 11 := by
    show (publishAll json NewBroker (sampleMessages 1 12)).history = _
    rw [NewBroker_history, foldl_historyStep]
    decide
  have h2 : (Broker.Recent (publishAll json NewBroker (sampleMessages 1 12)).historyGoroutine).1 =
      sampleMessages 2 11 := by
    show (publishAll json NewBroker (sampleMessages 1 12)).historyGoroutine.history = _
    rw [NewBroker_stored, foldl_historyStep]
    decide
  rw [h1, h2]
  decide

/-- C2 (counterexample): right after the ten messages numbered 1 to 10 are
published to a fresh broker, the history goroutine still holding the tenth,
`Recent()` returns the nine messages numbered 1 to 9, not all ten. -/
theorem Recent_right_after_ten_publishes :
    (sampleMessages 1 10).length ≤ 10 ∧
    (Broker.Recent (publishAll sampleJson NewBroker (sampleMessages 1 10))).1 =
      sampleMessages 1 9 ∧
    (Broker.Recent (publishAll sampleJson NewBroker (sampleMessages 1 10))).1 ≠
      sampleMessages 1 10 := by
  have h : (Broker.Recent (publishAll sampleJson NewBroker (sampleMessages 1 10))).1 =
      sampleMessages 1 9 := by
    show (publishAll sampleJson NewBroker (sampleMessages 1 10)).history = _
    rw [NewBroker_history, foldl_historyStep]
    decide
  rw [h]
  decide

/-- C2 (amended): when at most ten messages are published to a fresh broker,
`Recent()` returns all of them, in publish order, once the history goroutine
has stored the last one, and all but the last one, in publish order, while the
goroutine still holds it; the same holds of every run of steps on a fresh
broker that publishes these messages, however the goroutine is scheduled. -/
theorem Recent_of_at_most_ten (json : Json) (msgs : List Message) (h : msgs.length ≤ 10) :
    (Broker.Recent (publishAll json NewBroker msgs).historyGoroutine).1 = msgs ∧
    (Broker.Recent (publishAll json NewBroker msgs)).1 = msgs.dropLast ∧
    (∀ (cs : List Call) (final : Broker), NewBroker.calls json cs = .ok final →
      published cs = msgs →
        (Broker.Recent final.historyGoroutine).1 = msgs ∧
        ((final.received = none ∧ (Broker.Recent final).1 = msgs) ∨
          (final.received = msgs.getLast? ∧ (Broker.Recent final).1 = msgs.dropLast))) := by
  refine ⟨?_, ?_, ?_⟩
  · show (publishAll json NewBroker msgs).historyGoroutine.history = msgs
    rw [NewBroker_stored, foldl_historyStep_short msgs h]
  · show (publishAll json NewBroker msgs).history = msgs.dropLast
    rw [NewBroker_history, foldl_historyStep_short]
    rw [List.length_dropLast]
    omega
  · intro cs final hrun hpub
    have hh := NewBroker_handedOver json cs final hrun
    rw [hpub] at hh
    rcases hh with ⟨h1, h2⟩ | ⟨init, m, h0, h1, h2⟩
    · rw [foldl_historyStep_short msgs h] at h2
      refine ⟨?_, Or.inl ⟨h1, h2⟩⟩
      show final.historyGoroutine.history = msgs
      rw [historyGoroutine_history, h1]
      exact h2
    · have hinit : init.length ≤ 10 := by
        rw [h0, List.length_append] at h
        omega
      rw [foldl_historyStep_short init hinit] at h2
      refine ⟨?_, Or.inr ⟨?_, ?_⟩⟩
      · show final.historyGoroutine.history = msgs
        rw [historyGoroutine_history, h1]
        simp only
        rw [h2, historyStep_eq, h0]
        have e : init.length - 10 = 0 := by omega
        rw [e, List.drop_zero]
      · rw [h1, h0, List.getLast?_concat]
      · show final.history = msgs.dropLast
        rw [h2, h0, List.dropLast_concat]

/-- C2 (amended) at the ten messages numbered 1 to 10. -/
theorem Recent_of_at_most_ten_witness :
    (sampleMessages 1 10).length ≤ 10 ∧
    (Broker.Recent (publishAll sampleJson NewBroker (sampleMessages 1 10)).historyGoroutine).1 =
      sampleMessages 1 10 ∧
    (Broker.Recent (publishAll sampleJson NewBroker (sampleMessages 1 10))).1 =
      (sampleMessages 1 10).dropLast :=
  ⟨by decide, (Recent_of_at_most_ten sampleJson (sampleMessages 1 10) (by decide)).1,
    (Recent_of_at_most_ten sampleJson (sampleMessages 1 10) (by decide)).2.1⟩

/-- C10: the history update step trims the stored history to its last 10
entries only when it holds more than 10 and then appends the new message; the
history the step builds from the empty one over N published messages has
length min(N, 11) and is the last min(N, 11) of them in publish order; its
length never exceeds 11 and is 11 exactly when N is at least 11; this is the
history of the broker once the goroutine has stored the N messages published
on a fresh broker, in every run; and in every state of every run the stored
history has at most 11 entries. -/
theorem history_length_min_eleven (json : Json) (msgs : List Message) :
    (∀ (h : List Message) (str : Message), historyStep h str =
      (if 10 < h.length then h.drop (h.length - 10) else h) ++ [str]) ∧
    (msgs.foldl historyStep []).length = min msgs.length 11 ∧
    msgs.foldl historyStep [] = msgs.drop (msgs.length - min msgs.length 11) ∧
    (msgs.foldl historyStep []).length ≤ 11 ∧
    ((msgs.foldl historyStep []).length = 11 ↔ 11 ≤ msgs.length) ∧
    (publishAll json NewBroker msgs).historyGoroutine.history = msgs.foldl historyStep [] ∧
    (∀ (cs : List Call) (final : Broker), NewBroker.calls json cs = .ok final →
      published cs = msgs →
        final.historyGoroutine.history = msgs.foldl historyStep [] ∧
        final.history.length ≤ 11) := by
  refine ⟨?_, ?_, ?_, ?_, ?_, NewBroker_stored json msgs, ?_⟩
  · intro h str
    rw [historyStep_eq]
    by_cases hlen : 10 < h.length
    · rw [if_pos hlen]
    · have e : h.length - 10 = 0 := by omega
      rw [if_neg hlen, e, List.drop_zero]
  · exact foldl_historyStep_length msgs
  · rw [foldl_historyStep]
    have e : msgs.length - min msgs.length 11 = msgs.length - 11 := by omega
    rw [e]
  · rw [foldl_historyStep_length]
    omega
  · rw [foldl_historyStep_length]
    omega
  · intro cs final hrun hpub
    have hh := NewBroker_handedOver json cs final hrun
    rw [hpub] at hh
    rcases hh with ⟨h1, h2⟩ | ⟨init, m, h0, h1, h2⟩
    · refine ⟨?_, ?_⟩
      · rw [historyGoroutine_history, h1]
        exact h2
      · rw [h2, foldl_historyStep_length]
        omega
    · refine ⟨?_, ?_⟩
      · rw [historyGoroutine_history, h1]
        simp only
        rw [h2, h0, List.foldl_append]
        rfl
      · rw [h2, foldl_historyStep_length]
        omega

/-- C10 on the run `sampleCalls`, which publishes the messages numbered 1 and 2. -/
theorem history_length_min_eleven_witness :
    NewBroker.calls sampleJson sampleCalls = .ok sampleFinal ∧
    published sampleCalls = sampleMessages 1 2 ∧
    sampleFinal.historyGoroutine.history = (sampleMessages 1 2).foldl historyStep [] ∧
    sampleFinal.history.length ≤ 11 :=
  ⟨rfl, rfl,
    (history_length_min_eleven sampleJson (sampleMessages 1 2)).2.2.2.2.2.2
      sampleCalls sampleFinal rfl rfl⟩

/-! ## Claims about the registry -/

theorem Subscribe_cases (broker : Broker) (clientId : ClientId) (s : Chan) :
    (GoMap.get broker.subscribers clientId = none ∧
      broker.Subscribe clientId s = .ok
        { subscribers := (clientId, s) :: broker.subscribers
          history := broker.history
          received := broker.received
          trace := broker.trace ++
            [.Subscribe clientId, .Lock, .readSubscribers, .writeSubscribers, .Unlock] }) ∨
    ((GoMap.get broker.subscribers clientId).isSome = true ∧
      broker.Subscribe clientId s = .error AlreadySubscribed) := by
  cases h : GoMap.get broker.subscribers clientId with
  | none => exact Or.inl ⟨rfl, Subscribe_of_absent broker clientId s h⟩
  | some c => exact Or.inr ⟨rfl, Subscribe_of_present broker clientId s c h⟩

theorem Unsubscribe_cases (broker : Broker) (clientId : ClientId) :
    (GoMap.get broker.subscribers clientId = none ∧
      broker.Unsubscribe clientId = .error NotSubscribed) ∨
    ((GoMap.get broker.subscribers clientId).isSome = true ∧
      broker.Unsubscribe clientId = .ok
        { subscribers := GoMap.delete broker.subscribers clientId
          history := broker.history
          received := broker.received
          trace := broker.trace ++
            [.Unsubscribe clientId, .Lock, .readSubscribers, .close clientId,
              .writeSubscribers, .Unlock] }) := by
  cases h : GoMap.get broker.subscribers clientId with
  | none => exact Or.inl ⟨rfl, Unsubscribe_of_absent broker clientId h⟩
  | some c => exact Or.inr ⟨rfl, Unsubscribe_of_present broker clientId c h⟩

/-- C4: `Subscribe(id, ch)` panics, with `AlreadySubscribed`, iff `id` is
registered, and otherwise adds the one entry `id -> ch` and changes no other;
`Unsubscribe(id)` panics, with `NotSubscribed`, iff `id` is not registered, and
otherwise removes the entry of `id` and no other; a second `Subscribe` of the
same `id` right after a successful one panics. -/
theorem Subscribe_Unsubscribe_contract (broker : Broker) (clientId : ClientId) (s : Chan) :
    ((∃ p, broker.Subscribe clientId s = .error p) ↔
        (GoMap.get broker.subscribers clientId).isSome = true) ∧
    (∀ p, broker.Subscribe clientId s = .error p → p = AlreadySubscribed) ∧
    (∀ next, broker.Subscribe clientId s = .ok next →
        next.subscribers = (clientId, s) :: broker.subscribers ∧
        (∀ k, GoMap.get next.subscribers k =
          if k = clientId then some s else GoMap.get broker.subscribers k) ∧
        next.history = broker.history) ∧
    ((∃ p, broker.Unsubscribe clientId = .error p) ↔
        (GoMap.get broker.subscribers clientId).isSome = false) ∧
    (∀ p, broker.Unsubscribe clientId = .error p → p = NotSubscribed) ∧
    (∀ next, broker.Unsubscribe clientId = .ok next →
        next.subscribers = GoMap.delete broker.subscribers clientId ∧
        (∀ k, GoMap.get next.subscribers k =
          if k = clientId then none else GoMap.get broker.subscribers k) ∧
        next.history = broker.history) ∧
    (∀ next s2, broker.Subscribe clientId s = .ok next →
        next.Subscribe clientId s2 = .error AlreadySubscribed) := by
  refine ⟨?_, ?_, ?_, ?_, ?_, ?_, ?_⟩
  · rcases Subscribe_cases broker clientId s with ⟨h, e⟩ | ⟨h, e⟩
    · simp [h, e]
    · simp [h, e]
  · intro p hp
    rcases Subscribe_cases broker clientId s with ⟨h, e⟩ | ⟨h, e⟩
    · rw [e] at hp; cases hp
    · rw [e] at hp; cases hp; rfl
  · intro next hn
    rcases Subscribe_cases broker clientId s with ⟨h, e⟩ | ⟨h, e⟩
    · rw [e] at hn
      cases hn
      refine ⟨rfl, ?_, rfl⟩
      intro k
      by_cases hk : k = clientId
      · simp [GoMap.get, hk]
      · have hk2 : ¬ clientId = k := fun e => hk e.symm
        simp [GoMap.get, hk, hk2]
    · rw [e] at hn; cases hn
  · rcases Unsubscribe_cases broker clientId with ⟨h, e⟩ | ⟨h, e⟩
    · simp [h, e]
    · simp [h, e]
  · intro p hp
    rcases Unsubscribe_cases broker clientId with ⟨h, e⟩ | ⟨h, e⟩
    · rw [e] at hp; cases hp; rfl
    · rw [e] at hp; cases hp
  · intro next hn
    rcases Unsubscribe_cases broker clientId with ⟨h, e⟩ | ⟨h, e⟩
    · rw [e] at hn; cases hn
    · rw [e] at hn
      cases hn
      exact ⟨rfl, fun k => GoMap.get_delete _ _ _, rfl⟩
  · intro next s2 hn
    rcases Subscribe_cases broker clientId s with ⟨h, e⟩ | ⟨h, e⟩
    · rw [e] at hn
      cases hn
      exact Subscribe_of_present _ clientId s2 s (by simp [GoMap.get])
    · rw [e] at hn; cases hn

/-- C4 on a fresh broker: the first `Subscribe` of `a` succeeds and adds the
entry, the second one panics. -/
theorem Subscribe_Unsubscribe_contract_witness :
    NewBroker.Subscribe "a" Chan.make = .ok
      { subscribers := [("a", Chan.make)], history := [], received := none,
        trace := [.Subscribe "a", .Lock, .readSubscribers, .writeSubscribers, .Unlock] } ∧
    (Broker.mk [("a", Chan.make)] [] none
        [.Subscribe "a", .Lock, .readSubscribers, .writeSubscribers, .Unlock]).Subscribe
      "a" Chan.make = .error AlreadySubscribed :=
  ⟨Subscribe_of_absent NewBroker "a" Chan.make rfl,
    (Subscribe_Unsubscribe_contract NewBroker "a" Chan.make).2.2.2.2.2.2 _ Chan.make
      (Subscribe_of_absent NewBroker "a" Chan.make rfl)⟩

theorem netRegistered_nil (clientId : ClientId) : ¬ netRegistered [] clientId := by
  rintro ⟨before, s, after, h, -⟩
  cases before <;> simp at h

theorem netRegistered_cons (c : Call) (cs : List Call) (clientId : ClientId) :
    netRegistered (c :: cs) clientId ↔
      ((∃ s, c = Call.subscribe clientId s) ∧ Call.unsubscribe clientId ∉ cs) ∨
        netRegistered cs clientId := by
  constructor
  · rintro ⟨before, s, after, h, hafter⟩
    cases before with
    | nil =>
      simp only [List.nil_append, List.cons.injEq] at h
      obtain ⟨h1, h2⟩ := h
      exact Or.inl ⟨⟨s, h1⟩, h2 ▸ hafter⟩
    | cons b before =>
      simp only [List.cons_append, List.cons.injEq] at h
      exact Or.inr ⟨before, s, after, h.2, hafter⟩
  · rintro (⟨⟨s, h1⟩, h2⟩ | ⟨before, s, after, h, hafter⟩)
    · exact ⟨[], s, cs, by simp [h1], h2⟩
    · exact ⟨c :: before, s, after, by simp [h], hafter⟩

theorem Publish_registered (json : Json) (broker : Broker) (msg : Message) (k : ClientId) :
    (GoMap.get (broker.Publish json msg).subscribers k).isSome =
      (GoMap.get broker.subscribers k).isSome := by
  rw [Publish_subscribers_get]
  cases GoMap.get broker.subscribers k <;> rfl

theorem calls_registered (json : Json) (cs : List Call) :
    ∀ (broker final : Broker), broker.calls json cs = .ok final → ∀ k : ClientId,
      ((GoMap.get final.subscribers k).isSome = true ↔
        netRegistered cs k ∨
          ((GoMap.get broker.subscribers k).isSome = true ∧ Call.unsubscribe k ∉ cs)) := by
  induction cs with
  | nil =>
    intro broker final h k
    simp only [Broker.calls, Except.ok.injEq] at h
    subst h
    simp [netRegistered_nil]
  | cons c cs ih =>
    intro broker final h k
    rw [Broker.calls] at h
    cases hc : broker.call json c with
    | error p => rw [hc] at h; cases h
    | ok next =>
      rw [hc] at h
      simp only at h
      rw [ih next final h k, netRegistered_cons]
      cases c with
      | subscribe id s =>
        simp only [Broker.call] at hc
        rcases Subscribe_cases broker id s with ⟨habs, e⟩ | ⟨hpre, e⟩
        · rw [e] at hc
          cases hc
          by_cases hk : id = k
          · subst hk
            simp [GoMap.get, habs, or_comm]
          · have hk2 : ∀ s2, ¬ Call.subscribe id s = Call.subscribe k s2 := by
              intro s2 e2
              cases e2
              exact hk rfl
            simp [GoMap.get, hk, hk2]
        · rw [e] at hc; cases hc
      | unsubscribe id =>
        simp only [Broker.call] at hc
        rcases Unsubscribe_cases broker id with ⟨habs, e⟩ | ⟨hpre, e⟩
        · rw [e] at hc; cases hc
        · rw [e] at hc
          cases hc
          simp only [GoMap.get_delete]
          by_cases hk : k = id
          · subst hk
            simp
          · have hk2 : ¬ Call.unsubscribe k = Call.unsubscribe id := by
              intro e2
              cases e2
              exact hk rfl
            simp [hk, hk2]
      | publish msg =>
        simp only [Broker.call, Except.ok.injEq] at hc
        subst hc
        rw [Publish_registered]
        simp
      | goroutine =>
        simp only [Broker.call, Except.ok.injEq] at hc
        subst hc
        rw [historyGoroutine_subscribers]
        simp

/-- C3: after a run of calls on a fresh broker in which none panicked,
`IsConnected(id)` is true iff `id` was subscribed in the run and not
unsubscribed after that; `IsConnected` leaves the registry and the history as
they were. -/
theorem IsConnected_net_registration (json : Json) (cs : List Call) (final : Broker)
    (clientId : ClientId) (h : NewBroker.calls json cs = .ok final) :
    ((final.IsConnected clientId).1 = true ↔ netRegistered cs clientId) ∧
    (final.IsConnected clientId).2.subscribers = final.subscribers ∧
    (final.IsConnected clientId).2.history = final.history := by
  refine ⟨?_, rfl, rfl⟩
  have key := calls_registered json cs NewBroker final h clientId
  simpa [Broker.IsConnected, Broker.emit, NewBroker, GoMap.get] using key

/-- C3 on the run `sampleCalls`: `b` subscribed and never unsubscribed. -/
theorem IsConnected_net_registration_witness :
    NewBroker.calls sampleJson sampleCalls = .ok sampleFinal ∧
    (((sampleFinal.IsConnected "b").1 = true ↔ netRegistered sampleCalls "b") ∧
      (sampleFinal.IsConnected "b").2.subscribers = sampleFinal.subscribers ∧
      (sampleFinal.IsConnected "b").2.history = sampleFinal.history) :=
  ⟨rfl, IsConnected_net_registration sampleJson sampleCalls sampleFinal "b" rfl⟩

/-! ## Claims about delivery -/

theorem Publish_trace (json : Json) (broker : Broker) (msg : Message) :
    (broker.Publish json msg).trace = broker.trace ++
      ([.Publish msg] ++
        (match broker.received with
          | none => []
          | some _ => [.readHistory, .writeHistory]) ++
        match json.marshalMessage msg with
        | none => []
        | some data => .readSubscribers :: fanOutEvents data broker.subscribers) := by
  have ht : (broker.emit [.Publish msg]).historyGoroutine.trace = broker.trace ++
      ([.Publish msg] ++
        match broker.received with
        | none => []
        | some _ => [.readHistory, .writeHistory]) := by
    rw [historyGoroutine_trace]
    show (broker.trace ++ [.Publish msg]) ++ _ = _
    rw [List.append_assoc]
    rfl
  have hs : (broker.emit [.Publish msg]).historyGoroutine.subscribers = broker.subscribers := by
    rw [historyGoroutine_subscribers]
    rfl
  unfold Broker.Publish
  cases json.marshalMessage msg with
  | none =>
    show (broker.emit [.Publish msg]).historyGoroutine.trace = _
    rw [ht]
    simp
  | some data =>
    show (broker.emit [.Publish msg]).historyGoroutine.trace ++
      (.readSubscribers :: fanOutEvents data (broker.emit [.Publish msg]).historyGoroutine.subscribers)
        = _
    rw [ht, hs]
    simp

theorem eventsSince_append (before after : Broker) (es : List Event)
    (h : after.trace = before.trace ++ es) : eventsSince before after = es := by
  unfold eventsSince
  rw [h, List.drop_left]

theorem GoMap.key_ne_of_get_none {β : Type} (m : GoMap β) (key : ClientId)
    (h : GoMap.get m key = none) : ∀ e ∈ m, e.1 ≠ key := by
  induction m with
  | nil => intro e he; cases he
  | cons e0 rest ih =>
    obtain ⟨k0, v0⟩ := e0
    by_cases h0 : k0 = key
    · simp [GoMap.get, h0] at h
    · simp only [GoMap.get, h0, if_false] at h
      intro e he
      rcases List.mem_cons.mp he with rfl | hr
      · exact h0
      · exact ih h e hr

theorem calls_delivered (json : Json) (clientId : ClientId) (cs : List Call) :
    ∀ (broker final : Broker) (c : Chan),
      GoMap.get broker.subscribers clientId = some c →
      Call.unsubscribe clientId ∉ cs →
      broker.calls json cs = .ok final →
      GoMap.get final.subscribers clientId =
        some { delivered := c.delivered ++ (published cs).filterMap json.marshalMessage } := by
  induction cs with
  | nil =>
    intro broker final c hreg _ hrun
    simp only [Broker.calls, Except.ok.injEq] at hrun
    subst hrun
    simp [published, hreg]
  | cons call cs ih =>
    intro broker final c hreg hkeep hrun
    rw [Broker.calls] at hrun
    have hkeep2 : Call.unsubscribe clientId ∉ cs := fun hm => hkeep (List.mem_cons_of_mem _ hm)
    cases hc : broker.call json call with
    | error p => rw [hc] at hrun; cases hrun
    | ok next =>
      rw [hc] at hrun
      simp only at hrun
      cases call with
      | subscribe id s =>
        simp only [Broker.call] at hc
        rcases Subscribe_cases broker id s with ⟨habs, e⟩ | ⟨_, e⟩
        · rw [e] at hc
          cases hc
          have hne : ¬ id = clientId := by
            intro hid
            rw [hid, hreg] at habs
            cases habs
          have hreg2 : GoMap.get ((id, s) :: broker.subscribers) clientId = some c := by
            simp [GoMap.get, hne, hreg]
          simpa [published] using ih _ final c hreg2 hkeep2 hrun
        · rw [e] at hc; cases hc
      | unsubscribe id =>
        simp only [Broker.call] at hc
        have hne : ¬ clientId = id := by
          intro hid
          exact hkeep (by simp [hid])
        rcases Unsubscribe_cases broker id with ⟨_, e⟩ | ⟨_, e⟩
        · rw [e] at hc; cases hc
        · rw [e] at hc
          cases hc
          have hreg2 : GoMap.get (GoMap.delete broker.subscribers id) clientId = some c := by
            rw [GoMap.get_delete, if_neg hne, hreg]
          simpa [published] using ih _ final c hreg2 hkeep2 hrun
      | publish msg =>
        simp only [Broker.call, Except.ok.injEq] at hc
        subst hc
        have hreg2 := Publish_subscribers_get json broker msg clientId
        rw [hreg] at hreg2
        rw [ih _ final _ hreg2 hkeep2 hrun]
        cases hm : json.marshalMessage msg <;> simp [published, List.filterMap_cons, hm]
      | goroutine =>
        simp only [Broker.call, Except.ok.injEq] at hc
        subst hc
        have hreg2 : GoMap.get broker.historyGoroutine.subscribers clientId = some c := by
          rw [historyGoroutine_subscribers, hreg]
        simpa [published] using ih _ final c hreg2 hkeep2 hrun

theorem filterMap_eq_map_of_total {α β : Type} (f : α → Option β) (g : α → β) (l : List α)
    (h : ∀ a ∈ l, f a = some (g a)) : l.filterMap f = l.map g := by
  induction l with
  | nil => rfl
  | cons a rest ih =>
    have ha := h a (List.mem_cons_self _ _)
    have hr := ih (fun b hb => h b (List.mem_cons_of_mem _ hb))
    simp [List.filterMap_cons, ha, hr]

/-- C5: an identifier registered at the start of a run of calls and not
unsubscribed in it has received on its channel, at the end of the run, exactly
the serialization of each published message, once each and in publish order,
after what it had received before; a `Publish` sends nothing to an identifier
that is not registered when it is called, and does not register it. -/
theorem Publish_delivery (json : Json) (broker : Broker) (clientId : ClientId) :
    (∀ (cs : List Call) (final : Broker) (c : Chan),
      GoMap.get broker.subscribers clientId = some c →
      Call.unsubscribe clientId ∉ cs →
      broker.calls json cs = .ok final →
        GoMap.get final.subscribers clientId =
          some { delivered := c.delivered ++ (published cs).filterMap json.marshalMessage } ∧
        ∀ enc : Message → Bytes,
          (∀ m ∈ published cs, json.marshalMessage m = some (enc m)) →
          GoMap.get final.subscribers clientId =
            some { delivered := c.delivered ++ (published cs).map enc }) ∧
    (∀ msg : Message, GoMap.get broker.subscribers clientId = none →
        GoMap.get (broker.Publish json msg).subscribers clientId = none ∧
        ∀ data, Event.send clientId data ∉ eventsSince broker (broker.Publish json msg)) := by
  constructor
  · intro cs final c hreg hkeep hrun
    have h := calls_delivered json clientId cs broker final c hreg hkeep hrun
    refine ⟨h, ?_⟩
    intro enc henc
    rw [h, filterMap_eq_map_of_total _ enc _ henc]
  · intro msg habs
    constructor
    · rw [Publish_subscribers_get, habs]
      rfl
    · intro data hmem
      rw [eventsSince_append broker _ _ (Publish_trace json broker msg)] at hmem
      have hkeys := GoMap.key_ne_of_get_none broker.subscribers clientId habs
      have hg : Event.send clientId data ∉
          (match broker.received with
            | none => []
            | some _ => [Event.readHistory, Event.writeHistory]) := by
        cases broker.received <;> simp
      cases hm : json.marshalMessage msg with
      | none =>
        simp only [hm, List.mem_append, List.mem_cons, List.mem_singleton, List.append_nil] at hmem
        rcases hmem with h1 | h1
        · rcases h1 with h1 | h1
          · cases h1
          · cases h1
        · exact hg h1
      | some d =>
        simp only [hm, fanOutEvents, List.mem_append, List.mem_cons, List.mem_map] at hmem
        rcases hmem with (h1 | h1) | h1 | ⟨e, he, heq⟩
        · rcases h1 with h1 | h1
          · cases h1
          · cases h1
        · exact hg h1
        · cases h1
        · cases heq
          exact hkeys e he rfl

/-- C5 on the last two calls of `sampleCalls`: `b`, registered throughout and
holding the first message, receives the second one after it. -/
theorem Publish_delivery_witness :
    GoMap.get [("b", (⟨[lit "1"]⟩ : Chan)), ("a", ⟨[lit "1"]⟩)] "b" = some ⟨[lit "1"]⟩ ∧
    GoMap.get sampleFinal.subscribers "b" =
      some { delivered := [lit "1"] ++
        (published [.unsubscribe "a", .publish (sampleMessage 2)]).map (fun m => lit m.Id) } :=
  ⟨by decide,
    ((Publish_delivery sampleJson
        { subscribers := [("b", ⟨[lit "1"]⟩), ("a", ⟨[lit "1"]⟩)]
          history := []
          received := some (sampleMessage 1)
          trace := sampleFinal.trace.take 14 } "b").1
      [.unsubscribe "a", .publish (sampleMessage 2)] sampleFinal ⟨[lit "1"]⟩
      (by decide) (by decide) rfl).2 (fun m => lit m.Id) (fun _ _ => rfl)⟩

/-! ## Claims about the service -/

theorem ensureClientId_fst (newId : ClientId) (w : ResponseWriter) (r : Request) :
    (ensureClientId newId w r).1 = r.Cookie.getD newId := by
  unfold ensureClientId
  cases r.Cookie <;> rfl

/-- C6: a POST to the publish endpoint whose `clientId` cookie is absent, or
names an identifier that is not registered, is answered with status 401, and
the history and the registry are the same after the call, whatever the body. -/
theorem Publish_unauthorized (json : Json) (broker : Broker) (flusher : Bool) (r : Request)
    (hpost : r.Method = http.MethodPost)
    (hid : r.Cookie = none ∨
      ∃ value, r.Cookie = some value ∧ GoMap.get broker.subscribers value = none) :
    (Service.Publish json broker (ResponseWriter.fresh flusher) r).1.status =
        some http.StatusUnauthorized ∧
    (Service.Publish json broker (ResponseWriter.fresh flusher) r).2.history = broker.history ∧
    (Service.Publish json broker (ResponseWriter.fresh flusher) r).2.subscribers =
        broker.subscribers := by
  rcases hid with hnone | ⟨value, hsome, habs⟩
  · simp [Service.Publish, Service.hasValidClientId, hpost, hnone, http.Error,
      ResponseWriter.Write, ResponseWriter.WriteHeader, ResponseWriter.setHeader,
      ResponseWriter.fresh]
  · simp [Service.Publish, Service.hasValidClientId, hpost, hsome, habs, http.Error,
      ResponseWriter.Write, ResponseWriter.WriteHeader, ResponseWriter.setHeader,
      ResponseWriter.fresh, Broker.IsConnected, Broker.emit]

/-- C6 on a fresh broker, for a request whose cookie names an identifier that
never subscribed. -/
theorem Publish_unauthorized_witness :
    (Service.Publish sampleJson NewBroker (ResponseWriter.fresh true)
        { Method := "POST", Cookie := some "ghost", Body := some (lit "x") }).1.status =
        some http.StatusUnauthorized ∧
    (Service.Publish sampleJson NewBroker (ResponseWriter.fresh true)
        { Method := "POST", Cookie := some "ghost", Body := some (lit "x") }).2.history =
        NewBroker.history ∧
    (Service.Publish sampleJson NewBroker (ResponseWriter.fresh true)
        { Method := "POST", Cookie := some "ghost", Body := some (lit "x") }).2.subscribers =
        NewBroker.subscribers :=
  Publish_unauthorized sampleJson NewBroker true
    { Method := "POST", Cookie := some "ghost", Body := some (lit "x") } rfl
    (Or.inr ⟨"ghost", rfl, rfl⟩)

theorem WriteHeader_out (w : ResponseWriter) (code : Nat) : (w.WriteHeader code).out = w.out := by
  unfold ResponseWriter.WriteHeader
  cases w.status <;> rfl

theorem Write_out (w : ResponseWriter) (p : Bytes) : (w.Write p).out = w.out ++ [Chunk.write p] := by
  simp [ResponseWriter.Write, WriteHeader_out]

theorem Flush_out (w : ResponseWriter) : w.Flush.out = w.out ++ [Chunk.flush] := by
  simp [ResponseWriter.Flush, WriteHeader_out]

theorem streamLoop_out (arrivals : List Bytes) :
    ∀ w : ResponseWriter, (streamLoop w arrivals).out =
      w.out ++ arrivals.flatMap (fun d => [Chunk.write (publishedEvent d), Chunk.flush]) := by
  induction arrivals with
  | nil => intro w; simp [streamLoop]
  | cons d rest ih =>
    intro w
    rw [streamLoop, ih, Flush_out, Write_out]
    simp

theorem written_of_published (arrivals : List Bytes) :
    ((arrivals.flatMap (fun d => [Chunk.write (publishedEvent d), Chunk.flush])).map
      (fun c => match c with | .write p => p | .flush => [])).flatten =
      (arrivals.map publishedEvent).flatten := by
  induction arrivals with
  | nil => rfl
  | cons d rest ih => simp [List.flatMap_cons, ih]

theorem body_of_out (w : ResponseWriter) (data : Bytes) (arrivals : List Bytes)
    (h : w.out = [Chunk.write (initEvent data), Chunk.flush] ++
      arrivals.flatMap (fun d => [Chunk.write (publishedEvent d), Chunk.flush])) :
    w.body = initEvent data ++ (arrivals.map publishedEvent).flatten := by
  unfold ResponseWriter.body
  rw [h, List.map_append, List.flatten_append, written_of_published]
  simp

theorem Service_Subscribe_rejected (json : Json) (newId : ClientId) (arrivals : List Bytes)
    (broker : Broker) (w : ResponseWriter) (r : Request)
    (h : r.Method ≠ http.MethodGet ∨ w.flusher = false) :
    Service.Subscribe json newId arrivals broker w r = .ok
      (if r.Method ≠ http.MethodGet then
        http.Error w (http.StatusText http.StatusMethodNotAllowed) http.StatusMethodNotAllowed
       else http.Error w "SSE unavailable" http.StatusBadRequest, broker) := by
  unfold Service.Subscribe
  by_cases hm : r.Method ≠ http.MethodGet
  · rw [if_pos hm, if_pos hm]
  · have hf : w.flusher = false := by
      rcases h with h | h
      · exact absurd h hm
      · exact h
    rw [if_neg hm, if_neg hm, if_pos hf]

theorem Service_Subscribe_session (json : Json) (newId : ClientId) (arrivals : List Bytes)
    (broker : Broker) (w : ResponseWriter) (r : Request)
    (hget : r.Method = http.MethodGet) (hflush : w.flusher = true)
    (habs : GoMap.get broker.subscribers (r.Cookie.getD newId) = none) :
    ∃ w2 : ResponseWriter,
      Service.Subscribe json newId arrivals broker w r = .ok (w2,
        { subscribers := broker.subscribers
          history := broker.history
          received := broker.received
          trace := broker.trace ++
            [.Subscribe (r.Cookie.getD newId), .Lock, .readSubscribers, .writeSubscribers,
              .Unlock, .Recent, .readHistory,
              .Unsubscribe (r.Cookie.getD newId), .Lock, .readSubscribers,
              .close (r.Cookie.getD newId), .writeSubscribers, .Unlock] }) ∧
      ∀ data, json.marshalInit (r.Cookie.getD newId) broker.history = some data →
        w2.out = w.out ++ ([Chunk.write (initEvent data), Chunk.flush] ++
          arrivals.flatMap (fun d => [Chunk.write (publishedEvent d), Chunk.flush])) := by
  have hid : ∀ w0 : ResponseWriter, (ensureClientId newId w0 r).1 = r.Cookie.getD newId :=
    fun w0 => ensureClientId_fst newId w0 r
  generalize hk : r.Cookie.getD newId = k at habs hid ⊢
  have hsub := Subscribe_of_absent broker k Chan.make habs
  have hdel : GoMap.delete ((k, Chan.make) :: broker.subscribers) k = broker.subscribers := by
    rw [GoMap.delete_cons, if_pos rfl, GoMap.delete_of_get_none _ _ habs]
  unfold Service.Subscribe
  simp only [hget, ne_eq, not_true_eq_false, if_false, hflush, Bool.true_eq_false]
  generalize hw : ((w.setHeader "Content-Type" "text/event-stream").setHeader
    "Cache-Control" "no-cache").setHeader "Connection" "keep-alive" = w1
  have hw1 : w1.out = w.out := by rw [← hw]; rfl
  have hid1 := hid w1
  have hout : (ensureClientId newId w1 r).2.out = w.out := by
    unfold ensureClientId
    cases r.Cookie <;> simp [ResponseWriter.addHeader, hw1]
  generalize ensureClientId newId w1 r = pr at hid1 hout
  obtain ⟨id1, w3⟩ := pr
  simp only at hid1 hout
  subst hid1
  simp only [hsub, Broker.Recent, Broker.emit]
  cases hinit : json.marshalInit id1 broker.history with
  | none =>
    refine ⟨w3, ?_, ?_⟩
    · simp [Broker.Unsubscribe, Broker.emit, GoMap.get, hdel]
    · intro data hd; cases hd
  | some data0 =>
    refine ⟨streamLoop ((w3.Write (initEvent data0)).Flush) arrivals, ?_, ?_⟩
    · simp [Broker.Unsubscribe, Broker.emit, GoMap.get, hdel]
    · intro data hd
      cases hd
      rw [streamLoop_out, Flush_out, Write_out, hout]
      simp

theorem Service_Subscribe_duplicate (json : Json) (newId : ClientId) (arrivals : List Bytes)
    (broker : Broker) (w : ResponseWriter) (r : Request)
    (hget : r.Method = http.MethodGet) (hflush : w.flusher = true) (p : Panic)
    (hsub : broker.Subscribe (r.Cookie.getD newId) Chan.make = .error p) :
    Service.Subscribe json newId arrivals broker w r = .error p := by
  unfold Service.Subscribe
  simp only [hget, ne_eq, not_true_eq_false, if_false, hflush, Bool.true_eq_false,
    ensureClientId_fst, hsub]

theorem session_Unsubscribe (broker : Broker) (k : ClientId)
    (habs : GoMap.get broker.subscribers k = none) :
    (Broker.Recent
        { subscribers := (k, Chan.make) :: broker.subscribers
          history := broker.history
          received := broker.received
          trace := broker.trace ++
            [.Subscribe k, .Lock, .readSubscribers, .writeSubscribers, .Unlock] }).2.Unsubscribe k =
      .ok
        { subscribers := broker.subscribers
          history := broker.history
          received := broker.received
          trace := broker.trace ++
            [.Subscribe k, .Lock, .readSubscribers, .writeSubscribers, .Unlock,
              .Recent, .readHistory,
              .Unsubscribe k, .Lock, .readSubscribers, .close k, .writeSubscribers, .Unlock] } := by
  have hdel : GoMap.delete ((k, Chan.make) :: broker.subscribers) k = broker.subscribers := by
    rw [GoMap.delete_cons, if_pos rfl, GoMap.delete_of_get_none _ _ habs]
  simp [Broker.Unsubscribe, Broker.Recent, Broker.emit, GoMap.get, hdel]

/-- C7: a stream session that subscribes its identifier successfully passes
through the broker `Broker.Subscribe` returns, in which the identifier is
registered, and ends, on the init-encoding failure path as on cancellation
after any number of relayed messages, in the broker that one
`Broker.Unsubscribe` of the identifier returns from there: the calls it has
made are `Subscribe`, `Recent` and `Unsubscribe`, each once, the identifier is
no longer registered and the registry is the one it started from; when
`Broker.Subscribe` panics the handler panics with it and makes no other call; a
request that is not a GET, or whose writer cannot flush, leaves the broker
untouched; and whatever steps other than an `Unsubscribe` of the identifier
run on the broker between the session's `Subscribe` and its end, the deferred
`Unsubscribe` then succeeds, removes the identifier and leaves every other
entry alone. -/
theorem Subscribe_session_unsubscribes_once (json : Json) (newId : ClientId)
    (arrivals : List Bytes) (broker : Broker) (w : ResponseWriter) (r : Request) :
    (r.Method = http.MethodGet → w.flusher = true →
      ∀ next, broker.Subscribe (ensureClientId newId w r).1 Chan.make = .ok next →
      ∃ w2 final, Service.Subscribe json newId arrivals broker w r = .ok (w2, final) ∧
        next.Recent.2.Unsubscribe (ensureClientId newId w r).1 = .ok final ∧
        (next.IsConnected (ensureClientId newId w r).1).1 = true ∧
        eventsSince broker final =
          [.Subscribe (ensureClientId newId w r).1, .Lock, .readSubscribers, .writeSubscribers,
            .Unlock, .Recent, .readHistory,
            .Unsubscribe (ensureClientId newId w r).1, .Lock, .readSubscribers,
            .close (ensureClientId newId w r).1, .writeSubscribers, .Unlock] ∧
        (eventsSince broker final).count (Event.Unsubscribe (ensureClientId newId w r).1) = 1 ∧
        (final.IsConnected (ensureClientId newId w r).1).1 = false ∧
        final.subscribers = broker.subscribers) ∧
    (r.Method = http.MethodGet → w.flusher = true →
      ∀ p, broker.Subscribe (ensureClientId newId w r).1 Chan.make = .error p →
        Service.Subscribe json newId arrivals broker w r = .error p) ∧
    (r.Method ≠ http.MethodGet ∨ w.flusher = false →
      ∃ w2, Service.Subscribe json newId arrivals broker w r = .ok (w2, broker)) ∧
    (∀ (clientId : ClientId) (next mid : Broker) (cs : List Call),
      broker.Subscribe clientId Chan.make = .ok next →
      Call.unsubscribe clientId ∉ cs →
      next.calls json cs = .ok mid →
      ∃ final, mid.Unsubscribe clientId = .ok final ∧
        (final.IsConnected clientId).1 = false ∧
        ∀ k, k ≠ clientId → GoMap.get final.subscribers k = GoMap.get mid.subscribers k) := by
  refine ⟨?_, ?_, ?_, ?_⟩
  · intro hget hflush next hnext
    rw [ensureClientId_fst] at hnext ⊢
    rcases Subscribe_cases broker (r.Cookie.getD newId) Chan.make with ⟨habs, e⟩ | ⟨_, e⟩
    · rw [e] at hnext
      cases hnext
      obtain ⟨w2, hrun, -⟩ :=
        Service_Subscribe_session json newId arrivals broker w r hget hflush habs
      refine ⟨w2, _, hrun, session_Unsubscribe broker _ habs, ?_, ?_, ?_, ?_, rfl⟩
      · simp [Broker.IsConnected, Broker.emit, GoMap.get]
      · rw [eventsSince_append broker _ _ rfl]
      · rw [eventsSince_append broker _ _ rfl]
        simp [List.count_cons]
      · simp [Broker.IsConnected, Broker.emit, habs]
    · rw [e] at hnext; cases hnext
  · intro hget hflush p hp
    rw [ensureClientId_fst] at hp
    exact Service_Subscribe_duplicate json newId arrivals broker w r hget hflush p hp
  · intro h
    exact ⟨_, Service_Subscribe_rejected json newId arrivals broker w r h⟩
  · intro clientId next mid cs hnext hkeep hrun
    have hreg : GoMap.get next.subscribers clientId = some Chan.make := by
      rcases Subscribe_cases broker clientId Chan.make with ⟨_, e⟩ | ⟨_, e⟩
      · rw [e] at hnext
        cases hnext
        simp [GoMap.get]
      · rw [e] at hnext; cases hnext
    have hmid := calls_delivered json clientId cs next mid Chan.make hreg hkeep hrun
    refine ⟨_, Unsubscribe_of_present mid clientId _ hmid, ?_, ?_⟩
    · simp [Broker.IsConnected, Broker.emit, GoMap.get_delete]
    · intro k hk
      simp only [GoMap.get_delete, if_neg hk]

/-- C7 on a fresh broker: a GET without a cookie, two relayed messages, then
cancellation; and the same request when the identifier is registered already. -/
theorem Subscribe_session_unsubscribes_once_witness :
    (∃ w2 final, Service.Subscribe sampleJson "abcdefg" [lit "x", lit "y"] NewBroker
        (ResponseWriter.fresh true) sampleGet = .ok (w2, final) ∧
      (Broker.Recent
        { subscribers := [("abcdefg", Chan.make)], history := [], received := none,
          trace := [.Subscribe "abcdefg", .Lock, .readSubscribers, .writeSubscribers,
            .Unlock] }).2.Unsubscribe "abcdefg" = .ok final ∧
      (Broker.IsConnected
        { subscribers := [("abcdefg", Chan.make)], history := [], received := none,
          trace := [.Subscribe "abcdefg", .Lock, .readSubscribers, .writeSubscribers,
            .Unlock] } "abcdefg").1 = true ∧
      eventsSince NewBroker final =
        [.Subscribe "abcdefg", .Lock, .readSubscribers, .writeSubscribers, .Unlock,
          .Recent, .readHistory,
          .Unsubscribe "abcdefg", .Lock, .readSubscribers, .close "abcdefg",
          .writeSubscribers, .Unlock] ∧
      (eventsSince NewBroker final).count (Event.Unsubscribe "abcdefg") = 1 ∧
      (final.IsConnected "abcdefg").1 = false ∧
      final.subscribers = NewBroker.subscribers) ∧
    Service.Subscribe sampleJson "abcdefg" [lit "x", lit "y"]
        { subscribers := [("abcdefg", Chan.make)], history := [], received := none, trace := [] }
        (ResponseWriter.fresh true) sampleGet = .error AlreadySubscribed :=
  ⟨(Subscribe_session_unsubscribes_once sampleJson "abcdefg" [lit "x", lit "y"] NewBroker
      (ResponseWriter.fresh true) sampleGet).1 rfl rfl _ rfl,
    (Subscribe_session_unsubscribes_once sampleJson "abcdefg" [lit "x", lit "y"]
      { subscribers := [("abcdefg", Chan.make)], history := [], received := none, trace := [] }
      (ResponseWriter.fresh true) sampleGet).2.1 rfl rfl _ rfl⟩

/-- C8: an established stream session (a GET on a flushing writer whose
`Broker.Subscribe` succeeds and whose init envelope, built from the client
identifier and `Broker.Recent()`, serializes to `data`) writes the init event,
flushes, and then for each value received on its channel, in order, writes the
published event and flushes; every event is an event line, a data line and a
blank line. -/
theorem Subscribe_stream_wire (json : Json) (newId : ClientId) (arrivals : List Bytes)
    (broker : Broker) (r : Request) (data : Bytes)
    (hget : r.Method = http.MethodGet)
    (hsub : ∃ next, broker.Subscribe
      (ensureClientId newId (ResponseWriter.fresh true) r).1 Chan.make = .ok next)
    (hinit : json.marshalInit (ensureClientId newId (ResponseWriter.fresh true) r).1
      broker.Recent.1 = some data) :
    ∃ w2 final, Service.Subscribe json newId arrivals broker (ResponseWriter.fresh true) r =
        .ok (w2, final) ∧
      w2.out = [Chunk.write (lit "event: init\ndata: " ++ data ++ lit "\n\n"), Chunk.flush] ++
        arrivals.flatMap (fun d =>
          [Chunk.write (lit "event: published\ndata: " ++ d ++ lit "\n\n"), Chunk.flush]) ∧
      w2.body = lit "event: init\ndata: " ++ data ++ lit "\n\n" ++
        (arrivals.map (fun d => lit "event: published\ndata: " ++ d ++ lit "\n\n")).flatten := by
  rw [ensureClientId_fst] at hsub hinit
  have habs : GoMap.get broker.subscribers (r.Cookie.getD newId) = none := by
    obtain ⟨next, hnext⟩ := hsub
    rcases Subscribe_cases broker (r.Cookie.getD newId) Chan.make with ⟨h, _⟩ | ⟨_, e⟩
    · exact h
    · rw [e] at hnext; cases hnext
  obtain ⟨w2, hrun, hout⟩ :=
    Service_Subscribe_session json newId arrivals broker (ResponseWriter.fresh true) r hget rfl habs
  have hout2 := hout data hinit
  simp only [ResponseWriter.fresh, List.nil_append] at hout2
  exact ⟨w2, _, hrun, hout2, body_of_out w2 data arrivals hout2⟩

/-- C8 on a fresh broker: a GET without a cookie and two relayed messages. -/
theorem Subscribe_stream_wire_witness :
    ∃ w2 final, Service.Subscribe sampleJson "abcdefg" [lit "x", lit "y"] NewBroker
        (ResponseWriter.fresh true) sampleGet = .ok (w2, final) ∧
      w2.out =
        [Chunk.write (lit "event: init\ndata: " ++ (lit "abcdefg" ++ [0]) ++ lit "\n\n"),
          Chunk.flush] ++
        [lit "x", lit "y"].flatMap (fun d =>
          [Chunk.write (lit "event: published\ndata: " ++ d ++ lit "\n\n"), Chunk.flush]) ∧
      w2.body = lit "event: init\ndata: " ++ (lit "abcdefg" ++ [0]) ++ lit "\n\n" ++
        ([lit "x", lit "y"].map
          (fun d => lit "event: published\ndata: " ++ d ++ lit "\n\n")).flatten :=
  Subscribe_stream_wire sampleJson "abcdefg" [lit "x", lit "y"] NewBroker sampleGet
    (lit "abcdefg" ++ [0]) rfl ⟨_, rfl⟩ rfl

/-! ## Claim about the mutex -/

theorem guarded_false_of_access (es : List Event) :
    (∀ e ∈ es, e ≠ Event.Lock) → (∃ e ∈ es, e.isAccess = true) → guarded false es = false := by
  induction es with
  | nil =>
    rintro - ⟨e, he, -⟩
    cases he
  | cons e rest ih =>
    intro hlock hacc
    have hrest : ∀ x ∈ rest, x ≠ Event.Lock := fun x hx => hlock x (List.mem_cons_of_mem _ hx)
    have he : e ≠ Event.Lock := hlock e (List.mem_cons_self _ _)
    by_cases ha : e.isAccess = true
    · cases e <;> simp_all [guarded, Event.isAccess]
    · have hacc2 : ∃ x ∈ rest, x.isAccess = true := by
        obtain ⟨x, hx, hxa⟩ := hacc
        rcases List.mem_cons.mp hx with rfl | hx
        · exact absurd hxa ha
        · exact ⟨x, hx, hxa⟩
      have := ih hrest hacc2
      cases e <;> simp_all [guarded, Event.isAccess]

theorem Publish_events_no_Lock (json : Json) (broker : Broker) (msg : Message) :
    ∀ e ∈ eventsSince broker (broker.Publish json msg), e ≠ Event.Lock := by
  rw [eventsSince_append broker _ _ (Publish_trace json broker msg)]
  intro e he
  cases hr : broker.received <;> cases hm : json.marshalMessage msg <;>
    simp only [hr, hm, fanOutEvents, List.mem_append, List.mem_cons, List.mem_map,
      List.append_nil, List.mem_singleton, List.not_mem_nil, or_false, false_or] at he
  all_goals
    intro h
    subst h
    simp at he

/-- C9 (evaluation of the code): the history goroutine reads and writes the
history, `Publish` reads the registry, and `Recent` reads the history, without
holding the mutex, on every broker and message; `IsConnected`, `Subscribe` and
`Unsubscribe` make all their accesses between `Lock` and `Unlock`. -/
theorem Publish_and_Recent_bypass_mutex (json : Json) (broker : Broker) (msg : Message)
    (clientId : ClientId) (s : Chan) :
    guarded false (eventsSince broker (broker.Publish json msg).historyGoroutine) = false ∧
    (match json.marshalMessage msg with
      | some _ => guarded false (eventsSince broker (broker.Publish json msg)) = false
      | none => True) ∧
    (match broker.received with
      | some _ => guarded false (eventsSince broker broker.historyGoroutine) = false
      | none => True) ∧
    guarded false (eventsSince broker broker.Recent.2) = false ∧
    guarded false (eventsSince broker (broker.IsConnected clientId).2) = true ∧
    (match broker.Subscribe clientId s with
      | .ok next => guarded false (eventsSince broker next) = true
      | .error _ => True) ∧
    (match broker.Unsubscribe clientId with
      | .ok next => guarded false (eventsSince broker next) = true
      | .error _ => True) := by
  refine ⟨?_, ?_, ?_, ?_, ?_, ?_, ?_⟩
  · have ht : (broker.Publish json msg).historyGoroutine.trace = broker.trace ++
        (eventsSince broker (broker.Publish json msg) ++ [.readHistory, .writeHistory]) := by
      rw [historyGoroutine_trace, Publish_received,
        eventsSince_append broker _ _ (Publish_trace json broker msg), Publish_trace,
        List.append_assoc]
    rw [eventsSince_append broker _ _ ht]
    apply guarded_false_of_access
    · intro e he
      rcases List.mem_append.mp he with h | h
      · exact Publish_events_no_Lock json broker msg e h
      · intro hl
        subst hl
        simp at h
    · exact ⟨.readHistory, by simp, rfl⟩
  · cases hm : json.marshalMessage msg with
    | none => trivial
    | some data =>
      simp only
      apply guarded_false_of_access _ (Publish_events_no_Lock json broker msg)
      refine ⟨.readSubscribers, ?_, rfl⟩
      rw [eventsSince_append broker _ _ (Publish_trace json broker msg), hm]
      simp
  · cases hr : broker.received with
    | none => trivial
    | some str =>
      simp only
      have ht := historyGoroutine_trace broker
      rw [hr] at ht
      rw [eventsSince_append broker _ _ ht]
      rfl
  · rw [eventsSince_append broker broker.Recent.2 [.Recent, .readHistory] rfl]
    rfl
  · rw [eventsSince_append broker (broker.IsConnected clientId).2
      [.IsConnected clientId, .Lock, .readSubscribers, .Unlock] (by
        simp [Broker.IsConnected, Broker.emit])]
    rfl
  · rcases Subscribe_cases broker clientId s with ⟨_, e⟩ | ⟨_, e⟩
    · rw [e]
      simp only
      rw [eventsSince_append broker _ _ rfl]
      rfl
    · rw [e]
      trivial
  · rcases Unsubscribe_cases broker clientId with ⟨_, e⟩ | ⟨_, e⟩
    · rw [e]
      trivial
    · rw [e]
      simp only
      rw [eventsSince_append broker _ _ rfl]
      rfl

end SSE
